import Mathlib

/-!
Shallow embedding of the project scanner of `llm-programming-setup`
(`src/llm_programming_setup_mcp/tools/project_scanner.py`), together with
theorems settling the specification claims about it.

Filenames and patterns are Lean `String`s; pattern matching is carried out on
their underlying character lists.  Confidence scores (Python floats that only
ever take values in smallish decimal fractions) are modelled as rationals.
-/

namespace ProjectScanner

/-- One character class item test for a shell glob bracket expression:
`a-b` matches the range, any other character matches itself
(mirrors `fnmatch.translate`'s treatment of `[...]` bodies). -/
def classMatch (c : Char) : List Char → Bool
  | a :: '-' :: b :: rest => (decide (a ≤ c) && decide (c ≤ b)) || classMatch c rest
  | a :: rest => (c == a) || classMatch c rest
  | [] => false

/-- Scan forward to the closing `]` of a bracket expression, returning the
body and the remainder of the pattern; `none` when the bracket is unclosed. -/
def scanClass : List Char → Option (List Char × List Char)
  | [] => none
  | c :: rest =>
    if c == ']' then some ([], rest)
    else
      match scanClass rest with
      | some (body, r) => some (c :: body, r)
      | none => none

/-- Parse the bracket expression that follows a `[` in a glob pattern:
an optional leading `!` negates, a `]` in first position is a literal member.
Returns (negation, body, rest of pattern), or `none` for an unclosed `[`
(which `fnmatch` then treats as a literal `[`). -/
def parseClass (p : List Char) : Option (Bool × List Char × List Char) :=
  let negAndBody : Bool × List Char :=
    match p with
    | '!' :: q => (true, q)
    | _ => (false, p)
  match negAndBody with
  | (neg, ']' :: q) =>
    match scanClass q with
    | some (body, rest) => some (neg, ']' :: body, rest)
    | none => none
  | (neg, q) =>
    match scanClass q with
    | some (body, rest) => some (neg, body, rest)
    | none => none

/-- Fuel-indexed shell glob matcher (the semantics of Python's
`fnmatch.fnmatch` on a case-sensitive file system): `*` matches any sequence,
`?` any single character, `[...]` a bracket class, everything else literally,
anchored at both ends.  Every step consumes at least one character of the
pattern or of the name, so fuel `pattern.length + name.length + 1` (used by
`fnmatchL`) never runs out. -/
def fnmatchAux : Nat → List Char → List Char → Bool
  | 0, _, _ => false
  | _ + 1, [], n => n.isEmpty
  | fuel + 1, '*' :: p, n =>
    fnmatchAux fuel p n ||
      (match n with
       | [] => false
       | _ :: n' => fnmatchAux fuel ('*' :: p) n')
  | fuel + 1, '?' :: p, n =>
    (match n with
     | [] => false
     | _ :: n' => fnmatchAux fuel p n')
  | fuel + 1, '[' :: p, n =>
    (match parseClass p with
     | some (neg, body, rest) =>
       (match n with
        | [] => false
        | c :: n' => (classMatch c body != neg) && fnmatchAux fuel rest n')
     | none =>
       (match n with
        | '[' :: n' => fnmatchAux fuel p n'
        | _ => false))
  | fuel + 1, c :: p, n =>
    (match n with
     | [] => false
     | d :: n' => (c == d) && fnmatchAux fuel p n')

/-- `fnmatch.fnmatch(filename, pattern)` on a case-sensitive platform. -/
def fnmatchL (filename pattern : List Char) : Bool :=
  fnmatchAux (pattern.length + filename.length + 1) pattern filename

/-- `ProjectScanner._match_pattern`, on character lists: a pattern without `*`
is compared for exact equality; a pattern starting with `*.` is a suffix test
against `"." + extension` taken literally; any other pattern containing `*`
falls through to the general glob matcher. -/
def matchPatternL (f p : List Char) : Bool :=
  if p.contains '*' then
    match p with
    | '*' :: '.' :: ext => ('.' :: ext).isSuffixOf f
    | _ => fnmatchL f p
  else f == p

/-- `ProjectScanner._match_pattern(filename, pattern)`. -/
def matchPattern (filename pattern : String) : Bool :=
  matchPatternL filename.data pattern.data

/-- One entry of the `language_detection` table of `goto.yaml`, as
`_detect_languages` and its siblings read it with `.get`: the `files` pattern
list (default `[]` is inlined), and the optional `description`, `standards`
and `mandatory_files` keys. -/
structure LangRule where
  files : List String
  description : Option String
  standards : Option (List String)
  mandatory_files : Option (List String)
deriving DecidableEq, Repr

/-- The score record `_detect_languages` stores per detected language. -/
structure ScoreRecord where
  confidence : ℚ
  matched_files : List String
  description : String
deriving DecidableEq, Repr

/-- The parts of the loaded `goto.yaml` the scanner reads:
`goto_config["language_detection"]` as an insertion-ordered association list
(a Python dict), and
`goto_config["multi_language"]["priority_order"]`. -/
structure GotoConfig where
  language_detection : List (String × LangRule)
  priority_order : List String
deriving DecidableEq, Repr

/-- The pattern-collection loop of `_detect_languages`: for a glob pattern
(one containing `*`) extend `matches` with every file accepted by
`_match_pattern`, for a plain pattern append the pattern itself when it is
among the files. -/
def collectMatches (files : List String) (filePatterns : List String) : List String :=
  filePatterns.foldl
    (fun matched pattern =>
      if pattern.data.contains '*' then
        matched ++ files.filter (fun f => matchPattern f pattern)
      else if files.contains pattern then matched ++ [pattern]
      else matched)
    []

/-- The fixed key-file list of `_detect_languages`. -/
def keyFiles : List String :=
  ["package.json", "requirements.txt", "pubspec.yaml", "*.sln", "CMakeLists.txt"]

/-- The confidence-boost loop of `_detect_languages`: for each key pattern
matched by some matched file, `confidence = min(1.0, confidence + 0.4)`. -/
def boostConfidence (matched : List String) (c : ℚ) : ℚ :=
  keyFiles.foldl
    (fun conf keyFile =>
      if matched.any (fun m => matchPattern m keyFile) then min 1 (conf + 2/5) else conf)
    c

/-- The full confidence computation of `_detect_languages` for a language
whose collected matches are `matches`: `min(1.0, len(matches) * 0.3)`
followed by the key-file boost loop. -/
def languageConfidence (matched : List String) : ℚ :=
  boostConfidence matched (min 1 ((matched.length : ℚ) * (3/10)))

/-- `ProjectScanner._detect_languages(files)`: walk the detection table in
order, collect matches per language, and record a score entry exactly for the
languages with a non-empty match list. -/
def detectLanguages (languageDetection : List (String × LangRule)) (files : List String) :
    List (String × ScoreRecord) :=
  languageDetection.foldl
    (fun results entry =>
      let matched := collectMatches files entry.2.files
      if matched.isEmpty then results
      else
        results ++ [(entry.1,
          { confidence := languageConfidence matched,
            matched_files := matched,
            description := entry.2.description.getD (entry.1 ++ " project") })])
    []

/-- Python's `max(keys, key=confidence)` over the detection dict: fold left,
replacing the current best only on a strictly larger confidence, so the
earliest-inserted maximum wins. -/
def maxConfidenceLang (first : String × ScoreRecord) (rest : List (String × ScoreRecord)) :
    String :=
  (rest.foldl
    (fun best cand => if best.2.confidence < cand.2.confidence then cand else best)
    first).1

/-- `ProjectScanner._determine_primary_language(detection_results)`: `None`
for an empty table, else the first `priority_order` entry that is a key of
the table, else the maximum-confidence language. -/
def determinePrimaryLanguage (cfg : GotoConfig) (results : List (String × ScoreRecord)) :
    Option String :=
  match results with
  | [] => none
  | r :: rs =>
    match cfg.priority_order.find? (fun lang => ((r :: rs).lookup lang).isSome) with
    | some lang => some lang
    | none => some (maxConfidenceLang r rs)

/-- The fallback standards document of `_get_standards`. -/
def generalPrinciples : String := "coding-standards/general-principles.md"

/-- `ProjectScanner._get_standards(language)`: the fallback document for a
null language; otherwise the rule's `standards` value, with the same fallback
when the language is not in the table or its rule has no `standards` key. -/
def getStandards (cfg : GotoConfig) (language : Option String) : List String :=
  match language with
  | none => [generalPrinciples]
  | some lang =>
    match cfg.language_detection.lookup lang with
    | none => [generalPrinciples]
    | some rule => rule.standards.getD [generalPrinciples]

/-- The dictionary `_check_mandatory_files` returns.  The early null-language
return carries no `all_present` key, modelled by `none`. -/
structure MandatoryReport where
  required : List String
  present : List String
  missing : List String
  all_present : Option Bool
deriving DecidableEq, Repr

/-- `ProjectScanner._check_mandatory_files(files, language)`. -/
def checkMandatoryFiles (cfg : GotoConfig) (files : List String) (language : Option String) :
    MandatoryReport :=
  match language with
  | none => { required := [], missing := [], present := [], all_present := none }
  | some lang =>
    let mandatory : List String :=
      match cfg.language_detection.lookup lang with
      | none => []
      | some rule => rule.mandatory_files.getD []
    let present := mandatory.filter (fun f => files.contains f)
    let missing := mandatory.filter (fun f => !(files.contains f))
    { required := mandatory, present := present, missing := missing,
      all_present := some (missing.length == 0) }

/-- Stable ascending insertion used to model Python's `sorted(files)`. -/
def insertSorted (s : String) : List String → List String
  | [] => [s]
  | t :: ts => if t < s then t :: insertSorted s ts else s :: t :: ts

/-- Python's `sorted` on a list of strings. -/
def sortedStrings (l : List String) : List String :=
  l.foldr insertSorted []

/-- The success dictionary `ProjectScanner.scan` assembles. -/
structure ScanReport where
  path : String
  project_name : String
  files_found : List String
  detected_languages : List (String × ScoreRecord)
  primary_language : Option String
  confidence : ℚ
  applicable_standards : List String
  mandatory_files : MandatoryReport
  total_files : Nat
deriving DecidableEq, Repr

/-- A `scan` return value: the error dictionaries carry exactly an `error`
message and a `path`, the success dictionary is a full `ScanReport`. -/
inductive ScanResult where
  | failure (error : String) (path : String)
  | success (report : ScanReport)
deriving DecidableEq, Repr

/-- The state of the file system at the scanned path, as `scan` observes it:
whether the resolved path exists, whether it is a directory, the regular-file
names `iterdir` yields (`none` when enumeration raises `PermissionError`),
the resolved absolute path, and its last segment. -/
structure Dir where
  pathExists : Bool
  isDir : Bool
  entries : Option (List String)
  resolved : String
  name : String
deriving DecidableEq, Repr

/-- `ProjectScanner.scan(path)` over the observed directory state `d`. -/
def scan (cfg : GotoConfig) (path : String) (d : Dir) : ScanResult :=
  if !d.pathExists then
    .failure ("Path does not exist: " ++ path) d.resolved
  else if !d.isDir then
    .failure ("Path is not a directory: " ++ path) d.resolved
  else
    match d.entries with
    | none => .failure ("Permission denied accessing: " ++ path) d.resolved
    | some files =>
      let detectionResults := detectLanguages cfg.language_detection files
      let primaryLanguage := determinePrimaryLanguage cfg detectionResults
      let standards : List String :=
        match primaryLanguage with
        | some lang => getStandards cfg (some lang)
        | none => []
      let mandatoryFiles := checkMandatoryFiles cfg files primaryLanguage
      .success
        { path := d.resolved
          project_name := d.name
          files_found := sortedStrings files
          detected_languages := detectionResults
          primary_language := primaryLanguage
          confidence :=
            match primaryLanguage with
            | some lang =>
              match detectionResults.lookup lang with
              | some rec => rec.confidence
              | none => 0
            | none => 0
          applicable_standards := standards
          mandatory_files := mandatoryFiles
          total_files := files.length }

/-! ## The Pattern Matcher as the specification words it (for comparison) -/

/-- A shell wildcard character as the spec's §4.1 understands the term:
`*`, `?`, or the opening bracket of a character class. -/
def wildcardChar (c : Char) : Bool := c == '*' || c == '?' || c == '['

/-- The Pattern Matcher as §4.1 of the spec describes it, for comparison with
`matchPattern`: exact equality when the pattern has no wildcard character at
all; the suffix test only for the shape `*.<ext>` with a literal extension;
a general shell-glob match for every other wildcard form. -/
def specMatches (filename pattern : String) : Bool :=
  if pattern.data.any wildcardChar then
    match pattern.data with
    | '*' :: '.' :: ext =>
      if ext.any wildcardChar then fnmatchL filename.data pattern.data
      else ('.' :: ext).isSuffixOf filename.data
    | _ => fnmatchL filename.data pattern.data
  else filename == pattern

/-! ## Derived forms of the scorer used by the claims -/

/-- The confidence formula as §4.2 of the spec states it — the key-file boost
applied exactly once, regardless of how many key patterns matched — for
comparison with `languageConfidence`'s per-key-pattern boost loop. -/
def singleBoostConfidence (matched : List String) : ℚ :=
  if keyFiles.any (fun k => matched.any (fun m => matchPattern m k)) then
    min 1 (min 1 ((matched.length : ℚ) * (3/10)) + 2/5)
  else min 1 ((matched.length : ℚ) * (3/10))

/-- The score record `_detect_languages` builds for a detection-table entry
(used to characterise membership in its result). -/
def scoreOf (files : List String) (entry : String × LangRule) : ScoreRecord :=
  { confidence := languageConfidence (collectMatches files entry.2.files),
    matched_files := collectMatches files entry.2.files,
    description := entry.2.description.getD (entry.1 ++ " project") }

/-- A one-language detection table used to instantiate the theorems:
a `python` rule matching `requirements.txt`. -/
def pyRule : LangRule :=
  { files := ["requirements.txt"]
    description := none
    standards := none
    mandatory_files := none }

/-- The detection table holding only `pyRule`. -/
def pyTable : List (String × LangRule) := [("python", pyRule)]

/-- A directory listing holding only `requirements.txt`. -/
def pyFiles : List String := ["requirements.txt"]

/-- The score record the scanner produces for `pyTable` over `pyFiles`:
one match at `0.3`, key-file boost `0.4`, confidence `0.7`. -/
def pyRec : ScoreRecord :=
  { confidence := 7/10, matched_files := ["requirements.txt"],
    description := "python project" }

/-- A variant of `pyRule` that declares an explicitly empty `standards`
list. -/
def pyRuleEmptyStandards : LangRule :=
  { files := ["requirements.txt"]
    description := none
    standards := some []
    mandatory_files := none }

/-- A configuration holding only `pyRuleEmptyStandards`, with an empty
priority order. -/
def emptyStandardsConfig : GotoConfig :=
  { language_detection := [("python", pyRuleEmptyStandards)]
    priority_order := [] }

/-- An existing, readable directory observed to hold `requirements.txt`. -/
def pyDir : Dir :=
  { pathExists := true
    isDir := true
    entries := some ["requirements.txt"]
    resolved := "/projects/py"
    name := "py" }

/-- The scan report `scan emptyStandardsConfig "/projects/py" pyDir`
produces: `python` detected at confidence `0.7` with an empty applicable
standards list. -/
def pyReport : ScanReport :=
  { path := "/projects/py"
    project_name := "py"
    files_found := ["requirements.txt"]
    detected_languages := [("python", pyRec)]
    primary_language := some "python"
    confidence := 7/10
    applicable_standards := []
    mandatory_files := { required := [], present := [], missing := [], all_present := some true }
    total_files := 1 }

/-! ## Helper lemmas -/

/-- A pattern without `*` matches exactly the filename equal to it. -/
lemma matchPattern_eq_of_no_star (m p : String) (h : p.data.contains '*' = false) :
    matchPattern m p = true ↔ m.data = p.data := by
  unfold matchPattern matchPatternL
  rw [h]
  simp

/-- No filename matches two distinct key patterns: the four exact names are
pairwise different and none of them ends in `.sln`. -/
lemma keyFiles_exclusive (m k1 k2 : String) (h1 : k1 ∈ keyFiles) (h2 : k2 ∈ keyFiles)
    (hne : k1 ≠ k2) (hm1 : matchPattern m k1 = true) (hm2 : matchPattern m k2 = true) :
    False := by
  simp only [keyFiles, List.mem_cons, List.not_mem_nil, or_false] at h1 h2
  rcases h1 with rfl | rfl | rfl | rfl | rfl <;> rcases h2 with rfl | rfl | rfl | rfl | rfl <;>
    first
      | exact hne rfl
      | (rw [matchPattern_eq_of_no_star _ _ (by decide)] at hm1
         rw [String.ext hm1] at hm2
         exact absurd hm2 (by decide))
      | (rw [matchPattern_eq_of_no_star _ _ (by decide)] at hm2
         rw [String.ext hm2] at hm1
         exact absurd hm1 (by decide))

/-- A list holding two distinct elements has at least two entries. -/
lemma two_ne_mem_length {α : Type} {a b : α} {l : List α}
    (ha : a ∈ l) (hb : b ∈ l) (hne : a ≠ b) : 2 ≤ l.length := by
  cases l with
  | nil => cases ha
  | cons x t =>
    cases t with
    | nil =>
      simp only [List.mem_singleton] at ha hb
      exact absurd (ha.trans hb.symm) hne
    | cons y u =>
      simp only [List.length_cons]
      omega

/-- Once the clamp has produced `1`, further boost steps keep it at `1`. -/
lemma foldl_boost_from_one {α : Type} (l : List α) :
    l.foldl (fun acc _ => min 1 (acc + 2/5)) (1 : ℚ) = 1 := by
  induction l with
  | nil => rfl
  | cons a t ih =>
    have h : min (1 : ℚ) (1 + 2/5) = 1 := by norm_num
    simp only [List.foldl_cons, h, ih]

/-- The boost loop is the unconditional boost iterated over the key patterns
that actually hit. -/
lemma boostConfidence_eq_filter (matched : List String) (c : ℚ) :
    boostConfidence matched c
      = (keyFiles.filter (fun k => matched.any (fun m => matchPattern m k))).foldl
          (fun acc _ => min 1 (acc + 2/5)) c := by
  unfold boostConfidence
  generalize keyFiles = l
  induction l generalizing c with
  | nil => rfl
  | cons a t ih =>
    rw [List.foldl_cons, List.filter_cons]
    by_cases h : (matched.any (fun m => matchPattern m a)) = true
    · rw [if_pos h, if_pos h, List.foldl_cons]
      exact ih _
    · rw [if_neg h, if_neg h]
      exact ih _

/-- The scorer's per-key-pattern boost loop computes the single-boost formula
of the spec: when two or more key patterns hit, the matched files already
number at least two (distinct key patterns are matched by distinct files), so
the base score is at least `0.6` and the very first clamped boost reaches
`1.0`, where every further boost is absorbed. -/
lemma languageConfidence_eq_single (matched : List String) :
    languageConfidence matched = singleBoostConfidence matched := by
  have hfilter := boostConfidence_eq_filter matched (min 1 ((matched.length : ℚ) * (3/10)))
  unfold languageConfidence singleBoostConfidence
  rw [hfilter]
  cases hks : keyFiles.filter (fun k => matched.any (fun m => matchPattern m k)) with
  | nil =>
    have hany : (keyFiles.any (fun k => matched.any (fun m => matchPattern m k))) = false := by
      rw [List.any_eq_false]
      intro k hk
      have := List.filter_eq_nil_iff.mp hks k hk
      simpa using this
    rw [hany]
    simp
  | cons k1 ks =>
    have hk1f : k1 ∈ keyFiles.filter (fun k => matched.any (fun m => matchPattern m k)) := by
      rw [hks]; exact List.mem_cons_self _ _
    have hk1 := List.mem_filter.mp hk1f
    have hany : (keyFiles.any (fun k => matched.any (fun m => matchPattern m k))) = true :=
      List.any_eq_true.mpr ⟨k1, hk1.1, hk1.2⟩
    rw [hany, if_pos rfl]
    cases ks with
    | nil => simp [List.foldl_cons]
    | cons k2 ks2 =>
      have hk2f : k2 ∈ keyFiles.filter (fun k => matched.any (fun m => matchPattern m k)) := by
        rw [hks]; exact List.mem_cons_of_mem _ (List.mem_cons_self _ _)
      have hk2 := List.mem_filter.mp hk2f
      have hnodup : (keyFiles.filter (fun k => matched.any (fun m => matchPattern m k))).Nodup :=
        List.Nodup.filter _ (by decide)
      have hne12 : k1 ≠ k2 := by
        rw [hks] at hnodup
        have := (List.nodup_cons.mp hnodup).1
        intro he
        exact this (he ▸ List.mem_cons_self _ _)
      obtain ⟨m1, hm1mem, hm1⟩ := List.any_eq_true.mp hk1.2
      obtain ⟨m2, hm2mem, hm2⟩ := List.any_eq_true.mp hk2.2
      have hmne : m1 ≠ m2 := by
        intro he
        exact keyFiles_exclusive m1 k1 k2 hk1.1 hk2.1 hne12 hm1 (he ▸ hm2)
      have hlen : 2 ≤ matched.length := two_ne_mem_length hm1mem hm2mem hmne
      have hlenq : (2 : ℚ) ≤ (matched.length : ℚ) := by exact_mod_cast hlen
      have hbase : (3 : ℚ)/5 ≤ min 1 ((matched.length : ℚ) * (3/10)) := by
        refine le_min (by norm_num) ?_
        nlinarith
      have hone : min (1 : ℚ) (min 1 ((matched.length : ℚ) * (3/10)) + 2/5) = 1 := by
        refine min_eq_left ?_
        linarith
      rw [hone]
      rw [List.foldl_cons]
      rw [hone]
      exact foldl_boost_from_one _

/-- What it means to be an entry of `_detect_languages`' result, for any
accumulator of the fold. -/
lemma mem_detect_aux (files : List String) (ld : List (String × LangRule)) :
    ∀ (acc : List (String × ScoreRecord)) (x : String × ScoreRecord),
    (x ∈ ld.foldl
        (fun results entry =>
          let matched := collectMatches files entry.2.files
          if matched.isEmpty then results
          else
            results ++ [(entry.1,
              { confidence := languageConfidence matched,
                matched_files := matched,
                description := entry.2.description.getD (entry.1 ++ " project") })]) acc) ↔
      x ∈ acc ∨ ∃ entry ∈ ld, collectMatches files entry.2.files ≠ [] ∧
        x = (entry.1, scoreOf files entry) := by
  induction ld with
  | nil => simp
  | cons e t ih =>
    intro acc x
    rw [List.foldl_cons, ih]
    cases hnil : collectMatches files e.2.files with
    | nil =>
      simp [hnil, scoreOf, List.exists_mem_cons_iff]
    | cons c cs =>
      have hcne : c :: cs ≠ [] := by simp
      simp only [hnil, List.isEmpty_cons, Bool.false_eq_true, if_false, List.mem_append,
        List.mem_singleton, List.exists_mem_cons_iff, scoreOf, hcne, ne_eq,
        not_false_eq_true, true_and]
      tauto

/-- Membership in the Detection Result: exactly the table entries whose
collected match list is non-empty, carrying the computed score record. -/
lemma mem_detectLanguages_iff (ld : List (String × LangRule)) (files : List String)
    (x : String × ScoreRecord) :
    x ∈ detectLanguages ld files ↔
      ∃ entry ∈ ld, collectMatches files entry.2.files ≠ [] ∧
        x = (entry.1, scoreOf files entry) := by
  unfold detectLanguages
  rw [mem_detect_aux files ld [] x]
  simp

/-- The computed confidence always lies in `[0, 1]`. -/
lemma languageConfidence_bounds (matched : List String) :
    0 ≤ languageConfidence matched ∧ languageConfidence matched ≤ 1 := by
  rw [languageConfidence_eq_single]
  unfold singleBoostConfidence
  have h0 : (0 : ℚ) ≤ (matched.length : ℚ) * (3/10) := by positivity
  split
  · constructor
    · refine le_min (by norm_num) ?_
      have : (0 : ℚ) ≤ min 1 ((matched.length : ℚ) * (3/10)) := le_min (by norm_num) h0
      linarith
    · exact min_le_left _ _
  · exact ⟨le_min (by norm_num) h0, min_le_left _ _⟩

/-- A non-empty match list forces a confidence of at least `0.3`. -/
lemma languageConfidence_ge_threshold (matched : List String) (h : matched ≠ []) :
    3/10 ≤ languageConfidence matched := by
  rw [languageConfidence_eq_single]
  unfold singleBoostConfidence
  have hlen : 1 ≤ matched.length := List.length_pos.mpr h
  have hlenq : (1 : ℚ) ≤ (matched.length : ℚ) := by exact_mod_cast hlen
  have hbase : (3 : ℚ)/10 ≤ min 1 ((matched.length : ℚ) * (3/10)) := by
    refine le_min (by norm_num) ?_
    nlinarith
  split
  · refine le_min (by norm_num) ?_
    linarith
  · exact hbase

/-- The scanner's Detection Result for any one-rule table matching only
`requirements.txt` over the listing `["requirements.txt"]`: one match at
`0.3`, one key-file boost of `0.4`, confidence `0.7`. -/
lemma detect_single_requirements (desc : Option String) (std mand : Option (List String)) :
    detectLanguages [("python", ⟨["requirements.txt"], desc, std, mand⟩)] ["requirements.txt"]
      = [("python", ⟨7/10, ["requirements.txt"], desc.getD ("python" ++ " project")⟩)] := by
  have hc : collectMatches ["requirements.txt"] ["requirements.txt"] = ["requirements.txt"] := by
    decide
  have h1 : (["requirements.txt"].any (fun m => matchPattern m "package.json")) = false := by
    decide
  have h2 : (["requirements.txt"].any (fun m => matchPattern m "requirements.txt")) = true := by
    decide
  have h3 : (["requirements.txt"].any (fun m => matchPattern m "pubspec.yaml")) = false := by
    decide
  have h4 : (["requirements.txt"].any (fun m => matchPattern m "*.sln")) = false := by decide
  have h5 : (["requirements.txt"].any (fun m => matchPattern m "CMakeLists.txt")) = false := by
    decide
  have hconf : languageConfidence ["requirements.txt"] = 7/10 := by
    simp only [languageConfidence, boostConfidence, keyFiles, List.foldl, h1, h2, h3, h4, h5]
    norm_num
  simp only [detectLanguages, List.foldl, hc, hconf, List.isEmpty_cons]
  norm_num

/-- Specialisation of `detect_single_requirements` to `pyTable`. -/
lemma detect_pyTable : detectLanguages pyTable pyFiles = [("python", pyRec)] :=
  detect_single_requirements none none none

/-- `("python", pyRec)` is an entry of the concrete Detection Result. -/
lemma mem_detect_pyTable : ("python", pyRec) ∈ detectLanguages pyTable pyFiles := by
  rw [detect_pyTable]
  exact List.mem_singleton.mpr rfl

/-- In a pair list whose keys are distinct, a key determines its value. -/
lemma assoc_unique {α β : Type} {l : List (α × β)} (h : (l.map Prod.fst).Nodup)
    {a : α} {b1 b2 : β} (h1 : (a, b1) ∈ l) (h2 : (a, b2) ∈ l) : b1 = b2 := by
  induction l with
  | nil => cases h1
  | cons x t ih =>
    rw [List.map_cons, List.nodup_cons] at h
    rcases List.mem_cons.mp h1 with he1 | ht1 <;> rcases List.mem_cons.mp h2 with he2 | ht2
    · exact congrArg Prod.snd (he1.trans he2.symm)
    · have hmem2 : a ∈ t.map Prod.fst := List.mem_map.mpr ⟨(a, b2), ht2, rfl⟩
      rw [← he1] at h
      exact absurd hmem2 h.1
    · have hmem1 : a ∈ t.map Prod.fst := List.mem_map.mpr ⟨(a, b1), ht1, rfl⟩
      rw [← he2] at h
      exact absurd hmem1 h.1
    · exact ih h.2 ht1 ht2

/-! ## Theorems -/

/-- C1: every entry of the Detection Result with a non-empty matched-files
list carries the confidence `min(1.0, len(matched_files) * 0.3)`, raised by a
flat `0.4` boost exactly once — never more than once, no matter how many
distinct key patterns are matched — when some matched file matches a key
pattern, clamped again to `1.0`.  (The code boosts once per hitting key
pattern, but distinct key patterns are matched only by distinct files, so a
second hit implies a base of at least `0.6` and the clamp absorbs every boost
after the first.) -/
theorem detect_confidence_single_boost (ld : List (String × LangRule)) (files : List String)
    (lang : String) (rec : ScoreRecord)
    (hmem : (lang, rec) ∈ detectLanguages ld files)
    (hne : rec.matched_files ≠ []) :
    rec.confidence = singleBoostConfidence rec.matched_files := by
  obtain ⟨entry, -, -, hx⟩ := (mem_detectLanguages_iff ld files _).mp hmem
  have hrec : rec = scoreOf files entry := congrArg Prod.snd hx
  rw [hrec]
  unfold scoreOf
  exact languageConfidence_eq_single _

/-- C1 witness: the `python` rule over the single file `requirements.txt`
yields confidence `0.7 = min(1, 0.3) + 0.4`, as the single-boost formula
states. -/
theorem detect_confidence_single_boost_witness :
    pyRec.confidence = singleBoostConfidence pyRec.matched_files :=
  detect_confidence_single_boost pyTable pyFiles "python" pyRec mem_detect_pyTable (by decide)

/-- C5: every language recorded in a Detection Result has a confidence inside
the closed interval `[0, 1]`. -/
theorem detect_confidence_in_unit_interval (ld : List (String × LangRule))
    (files : List String) (lang : String) (rec : ScoreRecord)
    (hmem : (lang, rec) ∈ detectLanguages ld files) :
    0 ≤ rec.confidence ∧ rec.confidence ≤ 1 := by
  obtain ⟨entry, -, -, hx⟩ := (mem_detectLanguages_iff ld files _).mp hmem
  have hrec : rec = scoreOf files entry := congrArg Prod.snd hx
  rw [hrec]
  exact languageConfidence_bounds _

/-- C5 witness: the concrete `python` entry's confidence `0.7` lies in
`[0, 1]`. -/
theorem detect_confidence_in_unit_interval_witness :
    0 ≤ pyRec.confidence ∧ pyRec.confidence ≤ 1 :=
  detect_confidence_in_unit_interval pyTable pyFiles "python" pyRec mem_detect_pyTable

/-- C9: every language recorded in a Detection Result has confidence at least
`0.3`: a non-empty match list makes the base `min(1, len * 0.3)` at least
`0.3`, and the key-file boost only increases the value (within the clamp). -/
theorem detect_confidence_ge_threshold (ld : List (String × LangRule))
    (files : List String) (lang : String) (rec : ScoreRecord)
    (hmem : (lang, rec) ∈ detectLanguages ld files) :
    3/10 ≤ rec.confidence := by
  obtain ⟨entry, -, hne, hx⟩ := (mem_detectLanguages_iff ld files _).mp hmem
  have hrec : rec = scoreOf files entry := congrArg Prod.snd hx
  rw [hrec]
  exact languageConfidence_ge_threshold _ hne

/-- C9 witness: the concrete `python` entry's confidence `0.7` is at least
`0.3`. -/
theorem detect_confidence_ge_threshold_witness : 3/10 ≤ pyRec.confidence :=
  detect_confidence_ge_threshold pyTable pyFiles "python" pyRec mem_detect_pyTable

/-- C6: a language whose collected match list is empty is entirely absent
from the Detection Result, and no recorded entry has an empty match list or a
zero confidence. -/
theorem detect_omits_empty_matches (ld : List (String × LangRule)) (files : List String) :
    (∀ lang rec, (lang, rec) ∈ detectLanguages ld files →
        rec.matched_files ≠ [] ∧ rec.confidence ≠ 0) ∧
    ((ld.map Prod.fst).Nodup →
      ∀ lang rule, (lang, rule) ∈ ld → collectMatches files rule.files = [] →
        ∀ rec, (lang, rec) ∉ detectLanguages ld files) := by
  constructor
  · intro lang rec hmem
    obtain ⟨entry, -, hne, hx⟩ := (mem_detectLanguages_iff ld files _).mp hmem
    have hrec : rec = scoreOf files entry := congrArg Prod.snd hx
    rw [hrec]
    refine ⟨hne, ?_⟩
    have hge : 3/10 ≤ (scoreOf files entry).confidence :=
      languageConfidence_ge_threshold _ hne
    intro h0
    rw [h0] at hge
    linarith
  · intro hnodup lang rule hmem hempty rec hin
    obtain ⟨entry, hentry, hne, hx⟩ := (mem_detectLanguages_iff ld files _).mp hin
    have hlang : lang = entry.1 := congrArg Prod.fst hx
    have hentry' : (lang, entry.2) ∈ ld := by
      rw [hlang]
      exact hentry
    have hrule : rule = entry.2 := assoc_unique hnodup hmem hentry'
    rw [hrule] at hempty
    exact hne hempty

/-- C2 counterexample: on filename `fileX.txt` and pattern `file?.txt` the
code answers `false` (the pattern has no `*`, so `_match_pattern` compares for
exact equality), while the claim's description — `?` is a wildcard, so a
general shell-glob match applies — answers `true`. -/
theorem matchPattern_question_wildcard_cex :
    matchPattern "fileX.txt" "file?.txt" = false ∧
      specMatches "fileX.txt" "file?.txt" = true := by
  decide

/-- C2 amended: `_match_pattern` dispatches on `*` alone.  A pattern with no
`*` — even one containing `?` or a bracket class — is compared with the
filename for exact equality; a pattern starting with `*.` is a suffix test
against `"." ++ rest` with the rest taken literally (even when the rest
contains further wildcards); only the remaining patterns containing `*` get a
general shell-glob match. -/
theorem matchPattern_trichotomy (f p : String) :
    (p.data.contains '*' = false → (matchPattern f p = true ↔ f = p)) ∧
    (∀ ext, p.data = '*' :: '.' :: ext →
        matchPattern f p = List.isSuffixOf ('.' :: ext) f.data) ∧
    (p.data.contains '*' = true → (∀ ext, p.data ≠ '*' :: '.' :: ext) →
        matchPattern f p = fnmatchL f.data p.data) := by
  refine ⟨?_, ?_, ?_⟩
  · intro h
    unfold matchPattern matchPatternL
    rw [h]
    simp only [Bool.false_eq_true, if_false, beq_iff_eq]
    constructor
    · intro hd
      exact String.ext hd
    · intro he
      rw [he]
  · intro ext h
    unfold matchPattern matchPatternL
    rw [h]
    rfl
  · intro hstar hshape
    unfold matchPattern matchPatternL
    rw [hstar]
    rw [if_pos rfl]
    split
    all_goals first
      | rfl
      | (rename_i ext heq; exact absurd heq (hshape ext))


/-- Python's `max` with a key keeps the first strict maximum: the fold result
splits the table into earlier entries of strictly smaller confidence and
later entries of no larger confidence. -/
lemma foldl_max_split (first : String × ScoreRecord) (rest : List (String × ScoreRecord)) :
    ∃ pre post,
      first :: rest
          = pre ++ (rest.foldl
              (fun best cand => if best.2.confidence < cand.2.confidence then cand else best)
              first) :: post ∧
        (∀ x ∈ pre, x.2.confidence
            < (rest.foldl
                (fun best cand => if best.2.confidence < cand.2.confidence then cand else best)
                first).2.confidence) ∧
        (∀ x ∈ post, x.2.confidence
            ≤ (rest.foldl
                (fun best cand => if best.2.confidence < cand.2.confidence then cand else best)
                first).2.confidence) := by
  induction rest generalizing first with
  | nil =>
    exact ⟨[], [], rfl, by simp, by simp⟩
  | cons r rs ih =>
    rw [List.foldl_cons]
    by_cases h : first.2.confidence < r.2.confidence
    · rw [if_pos h]
      obtain ⟨pre, post, heq, hpre, hpost⟩ := ih r
      set res := rs.foldl
        (fun best cand => if best.2.confidence < cand.2.confidence then cand else best) r with hres
      have hcover : r.2.confidence ≤ res.2.confidence := by
        have hrmem : r ∈ pre ++ res :: post := by
          rw [← heq]; exact List.mem_cons_self _ _
        rcases List.mem_append.mp hrmem with hl | hr
        · exact le_of_lt (hpre r hl)
        · rcases List.mem_cons.mp hr with he | ht
          · rw [he]
          · exact hpost r ht
      refine ⟨first :: pre, post, ?_, ?_, hpost⟩
      · rw [List.cons_append, ← heq]
      · intro x hx
        rcases List.mem_cons.mp hx with he | ht
        · rw [he]; exact lt_of_lt_of_le h hcover
        · exact hpre x ht
    · rw [if_neg h]
      obtain ⟨pre, post, heq, hpre, hpost⟩ := ih first
      set res := rs.foldl
        (fun best cand => if best.2.confidence < cand.2.confidence then cand else best) first
        with hres
      cases pre with
      | nil =>
        rw [List.nil_append] at heq
        injection heq with hfirst hrs
        refine ⟨[], r :: rs, ?_, by simp, ?_⟩
        · rw [List.nil_append, ← hfirst]
        · intro x hx
          rcases List.mem_cons.mp hx with he | ht
          · rw [he, ← hfirst]
            exact le_of_not_lt h
          · rw [hrs] at ht
            exact hpost x ht
      | cons q pre2 =>
        rw [List.cons_append] at heq
        injection heq with hq htail
        have hfirstlt : first.2.confidence < res.2.confidence := by
          have hmq := hpre q (List.mem_cons_self _ _)
          rwa [← hq] at hmq
        refine ⟨first :: r :: pre2, post, ?_, ?_, hpost⟩
        · rw [List.cons_append, List.cons_append, ← htail]
        · intro x hx
          rcases List.mem_cons.mp hx with he | hx2
          · rw [he]
            exact hfirstlt
          · rcases List.mem_cons.mp hx2 with he2 | hx3
            · rw [he2]
              exact lt_of_le_of_lt (le_of_not_lt h) hfirstlt
            · exact hpre x (List.mem_cons_of_mem _ hx3)



/-- `_determine_primary_language` on a non-empty table, unfolded once. -/
lemma determinePrimary_cons (cfg : GotoConfig) (r : String × ScoreRecord)
    (rs : List (String × ScoreRecord)) :
    determinePrimaryLanguage cfg (r :: rs)
      = (match cfg.priority_order.find? (fun lang => ((r :: rs).lookup lang).isSome) with
         | some lang => some lang
         | none => some (maxConfidenceLang r rs)) := rfl

/-- C3: on an empty Detection Result the Primary Language Selector returns
null; otherwise it returns the first `priority_order` entry that is a key of
the result, priority dominating confidence; and when no priority entry is a
key (in particular for an empty priority order) it returns the language of
maximal confidence, every earlier entry of the table having strictly smaller
confidence (earliest-insertion tie-break). -/
theorem determinePrimary_selection (cfg : GotoConfig)
    (results : List (String × ScoreRecord)) :
    (results = [] → determinePrimaryLanguage cfg results = none) ∧
    (∀ p1 lang p2, cfg.priority_order = p1 ++ lang :: p2 →
      (∀ l ∈ p1, (results.lookup l).isSome = false) →
      (results.lookup lang).isSome = true →
      determinePrimaryLanguage cfg results = some lang) ∧
    ((∀ l ∈ cfg.priority_order, (results.lookup l).isSome = false) →
      ∀ r rs, results = r :: rs →
        ∃ pre chosen post,
          determinePrimaryLanguage cfg results = some chosen.1 ∧
          results = pre ++ chosen :: post ∧
          (∀ x ∈ pre, x.2.confidence < chosen.2.confidence) ∧
          (∀ x ∈ post, x.2.confidence ≤ chosen.2.confidence)) := by
  refine ⟨?_, ?_, ?_⟩
  · intro h
    rw [h]
    rfl
  · intro p1 lang p2 hp hnone hsome
    cases results with
    | nil => simp [List.lookup] at hsome
    | cons r rs =>
      rw [determinePrimary_cons, hp]
      have hfind : List.find? (fun l => ((r :: rs).lookup l).isSome) (p1 ++ lang :: p2)
          = some lang := by
        clear hp
        induction p1 with
        | nil =>
          rw [List.nil_append]
          exact List.find?_cons_of_pos _ hsome
        | cons a t iht =>
          rw [List.cons_append]
          rw [List.find?_cons_of_neg _ ?_]
          · exact iht (fun l hl => hnone l (List.mem_cons_of_mem _ hl))
          · rw [hnone a (List.mem_cons_self _ _)]
            simp
      rw [hfind]
  · intro hnone r rs heq
    subst heq
    rw [determinePrimary_cons]
    have hfind : List.find? (fun l => ((r :: rs).lookup l).isSome) cfg.priority_order
        = none := by
      rw [List.find?_eq_none]
      intro l hl
      rw [hnone l hl]
      simp
    rw [hfind]
    obtain ⟨pre, post, heq2, hpre, hpost⟩ := foldl_max_split r rs
    exact ⟨pre, _, post, rfl, heq2, hpre, hpost⟩



/-- `_detect_languages` over the `emptyStandardsConfig` table. -/
lemma detect_emptyStandards :
    detectLanguages [("python", pyRuleEmptyStandards)] ["requirements.txt"]
      = [("python", pyRec)] :=
  detect_single_requirements none (some []) none

/-- `scan` on an existing, readable directory assembles the success report
from the Scorer, Selector and Resolver over the observed listing. -/
lemma scan_success_form (cfg : GotoConfig) (path : String) (d : Dir) (files : List String)
    (hex : d.pathExists = true) (hdir : d.isDir = true) (hent : d.entries = some files) :
    scan cfg path d = .success
      { path := d.resolved
        project_name := d.name
        files_found := sortedStrings files
        detected_languages := detectLanguages cfg.language_detection files
        primary_language := determinePrimaryLanguage cfg (detectLanguages cfg.language_detection files)
        confidence :=
          match determinePrimaryLanguage cfg (detectLanguages cfg.language_detection files) with
          | some lang =>
            match (detectLanguages cfg.language_detection files).lookup lang with
            | some rec => rec.confidence
            | none => 0
          | none => 0
        applicable_standards :=
          match determinePrimaryLanguage cfg (detectLanguages cfg.language_detection files) with
          | some lang => getStandards cfg (some lang)
          | none => []
        mandatory_files :=
          checkMandatoryFiles cfg files
            (determinePrimaryLanguage cfg (detectLanguages cfg.language_detection files))
        total_files := files.length } := by
  unfold scan
  rw [hex, hdir, hent]
  rfl

/-- The concrete scan over `pyDir` with the empty-standards rule. -/
lemma scan_emptyStandards :
    scan emptyStandardsConfig "/projects/py" pyDir = .success pyReport := by
  rw [scan_success_form emptyStandardsConfig "/projects/py" pyDir ["requirements.txt"] rfl rfl rfl]
  have hld : emptyStandardsConfig.language_detection = [("python", pyRuleEmptyStandards)] := rfl
  rw [hld, detect_emptyStandards]
  rfl

/-- C4 counterexample: for a null language the early return of
`_check_mandatory_files` carries no `all_present` key at all, so the report's
all-present flag is not `true` as the claim states. -/
theorem null_language_all_present_cex :
    ¬ ((checkMandatoryFiles { language_detection := [], priority_order := [] } [] none).all_present
        = some true) := by
  decide

/-- C4 amended: when the selected language is null the Standards Resolver
returns the single fallback identifier, and the mandatory-files report has
`required`, `present` and `missing` all empty — but it carries no all-present
field at all (the early return omits the key) instead of `allPresent = true`. -/
theorem null_language_standards_and_mandatory (cfg : GotoConfig) (files : List String) :
    getStandards cfg none = [generalPrinciples] ∧
    checkMandatoryFiles cfg files none
      = { required := [], present := [], missing := [], all_present := none } :=
  ⟨rfl, rfl⟩

/-- C7: for any non-null language, the report's `present` list is exactly the
required files that occur in the file set, in the order of `required`; the
`missing` list is exactly the required files absent from the file set, in
the order of `required`; and the all-present flag is `true` iff `missing` is
empty. -/
theorem checkMandatory_report (cfg : GotoConfig) (files : List String) (lang : String) :
    (checkMandatoryFiles cfg files (some lang)).present
        = (checkMandatoryFiles cfg files (some lang)).required.filter
            (fun f => files.contains f) ∧
    (checkMandatoryFiles cfg files (some lang)).missing
        = (checkMandatoryFiles cfg files (some lang)).required.filter
            (fun f => !(files.contains f)) ∧
    ((checkMandatoryFiles cfg files (some lang)).all_present = some true ↔
        (checkMandatoryFiles cfg files (some lang)).missing = []) := by
  refine ⟨rfl, rfl, ?_⟩
  unfold checkMandatoryFiles
  simp [List.length_eq_zero]

/-- C8: `scan` is a total function of the observed directory state — it never
raises.  A missing path yields the not-found error, an existing non-directory
the not-a-directory error, a refused enumeration the permission-denied error,
each time carrying only the error message and the resolved path; a readable
directory always yields a success report. -/
theorem scan_error_cases (cfg : GotoConfig) (path : String) (d : Dir) :
    (d.pathExists = false →
        scan cfg path d = .failure ("Path does not exist: " ++ path) d.resolved) ∧
    (d.pathExists = true → d.isDir = false →
        scan cfg path d = .failure ("Path is not a directory: " ++ path) d.resolved) ∧
    (d.pathExists = true → d.isDir = true → d.entries = none →
        scan cfg path d = .failure ("Permission denied accessing: " ++ path) d.resolved) ∧
    (∀ files, d.pathExists = true → d.isDir = true → d.entries = some files →
        ∃ report, scan cfg path d = .success report) := by
  refine ⟨?_, ?_, ?_, ?_⟩
  · intro h
    unfold scan
    rw [h]
    rfl
  · intro h1 h2
    unfold scan
    rw [h1, h2]
    rfl
  · intro h1 h2 h3
    unfold scan
    rw [h1, h2, h3]
    rfl
  · intro files h1 h2 h3
    exact ⟨_, scan_success_form cfg path d files h1 h2 h3⟩

/-- C10: `_get_standards` falls back to the general-principles document
exactly for a null language, a language missing from the table, or a rule
without a `standards` key; a rule that declares `standards` as an explicitly
empty list yields the empty list, so a scan report can carry an empty
`applicable_standards` for a detected language. -/
theorem getStandards_fallback_rules (cfg : GotoConfig) (lang : String) :
    (getStandards cfg none = [generalPrinciples]) ∧
    (cfg.language_detection.lookup lang = none →
        getStandards cfg (some lang) = [generalPrinciples]) ∧
    (∀ rule, cfg.language_detection.lookup lang = some rule → rule.standards = none →
        getStandards cfg (some lang) = [generalPrinciples]) ∧
    (∀ rule sl, cfg.language_detection.lookup lang = some rule → rule.standards = some sl →
        getStandards cfg (some lang) = sl) ∧
    (∃ cfg2 path d report,
        scan cfg2 path d = .success report ∧
        report.primary_language = some "python" ∧
        report.applicable_standards = []) := by
  have hunfold : getStandards cfg (some lang)
      = (match cfg.language_detection.lookup lang with
         | none => [generalPrinciples]
         | some rule => rule.standards.getD [generalPrinciples]) := rfl
  refine ⟨rfl, ?_, ?_, ?_, ?_⟩
  · intro h
    rw [hunfold, h]
  · intro rule h hs
    rw [hunfold, h]
    show rule.standards.getD [generalPrinciples] = [generalPrinciples]
    rw [hs]
    rfl
  · intro rule sl h hs
    rw [hunfold, h]
    show rule.standards.getD [generalPrinciples] = sl
    rw [hs]
    rfl
  · exact ⟨emptyStandardsConfig, "/projects/py", pyDir, pyReport, scan_emptyStandards, rfl, rfl⟩


/-- The spec's priority-dominance scenario: languages `A` at confidence `0.9`
and `B` at `0.3` with priority order `[B, A]` select `B`. -/
lemma determinePrimary_priority_example :
    determinePrimaryLanguage { language_detection := [], priority_order := ["B", "A"] }
      [("A", ⟨9/10, ["a.txt"], "A project"⟩), ("B", ⟨3/10, ["b.txt"], "B project"⟩)]
      = some "B" := by
  decide

/-- With no priority order and a confidence tie, the earliest-inserted
language wins. -/
lemma determinePrimary_tie_example :
    determinePrimaryLanguage { language_detection := [], priority_order := [] }
      [("A", ⟨3/10, ["a.txt"], "A project"⟩), ("B", ⟨3/10, ["b.txt"], "B project"⟩)]
      = some "A" := by
  have hlt : ¬ ((3:ℚ)/10 < 3/10) := by norm_num
  rw [determinePrimary_cons]
  show some (maxConfidenceLang ("A", ⟨3/10, ["a.txt"], "A project"⟩)
      [("B", ⟨3/10, ["b.txt"], "B project"⟩)]) = some "A"
  unfold maxConfidenceLang
  simp only [List.foldl_cons, List.foldl_nil]
  rw [if_neg hlt]

/-- The spec's missing-path scenario: the result carries the not-found error
and the resolved path, nothing else. -/
lemma scan_missing_example :
    scan { language_detection := [], priority_order := [] } "missing"
      { pathExists := false, isDir := false, entries := none,
        resolved := "/work/missing", name := "missing" }
      = .failure "Path does not exist: missing" "/work/missing" := by
  decide

end ProjectScanner
